import Mathlib

/-!
Verification of the upload-ingest / deduplication pipeline of
`app.py` ("Docs to Markdown Converter", Streamlit variant).

The Python source is shallowly embedded below:
* pure helpers (`sanitize_filename`, `build_output_name`, `strip_markdown`,
  `is_supported`, `human_mb`, `pct_smaller`) become Lean functions;
* `sha256_stream_and_save` becomes a function over an explicit chunk list
  (the sequence of values returned by `uploaded_file.read(CHUNK_SIZE)`),
  returning the outcome together with flags recording whether a temporary
  file was created and whether it is still on disk afterwards;
* the per-upload processing loop (lines 185-273) becomes `processUpload`,
  acting on an insertion-ordered association list that models the
  `st.session_state.results` dict, with the number of converter
  invocations recorded;
* the external pieces (SHA-256 via `hashlib`, `MarkItDown.convert`) are
  opaque to the repository and are passed in as function parameters;
* Python `datetime.now()` timestamps are opaque strings passed as
  parameters;
* CPython floats are modelled by `ℚ`; every division appearing in the
  source is by a power of two or is only evaluated at claim-relevant
  exact points, so the rational model agrees with the float semantics
  at every fact proved below;
* Python byte strings are `List ℕ`; `None`-able values are `Option`s,
  with Python truthiness transcribed explicitly.
-/

/-! ## Configuration constants (app.py lines 34-53) -/

def ALLOWED_TYPES : List String :=
  ["pdf", "docx", "doc", "pptx", "ppt", "xlsx", "xls", "rtf",
   "html", "htm", "md", "txt", "csv", "tsv",
   "jpg", "jpeg", "png", "gif", "bmp", "tiff", "webp",
   "mp3", "wav", "m4a", "ogg", "flac",
   "zip"]

def ACCEPTED_EXTS : List String := ALLOWED_TYPES.map (fun x => "." ++ x)

def CHUNK_SIZE : ℕ := 4 * 1024 * 1024

def WARN_MB : ℕ := 50

def HARD_CAP_MB : ℕ := 200

def PREVIEW_CHARS : ℕ := 1000

/-- The hard cap expressed in bytes: `human_mb n > 200` iff `n > 200 * 1024²`. -/
def hardCapBytes : ℕ := 200 * 1024 * 1024

/-! ## Small Python-semantics helpers -/

/-- Python truthiness of an `Optional[int]`: `None` and `0` are falsy. -/
def pyTruthyNat : Option ℕ → Bool
  | some n => n != 0
  | none => false

/-- Python `a or b` for strings: the empty string is falsy. -/
def pyStrOr (a b : String) : String := if a = "" then b else a

/-- `human_mb` (app.py lines 103-104): `num_bytes / (1024*1024)` with the
`None` case mapped to `0.0`. -/
def human_mb : Option ℕ → ℚ
  | some n => (n : ℚ) / (1024 * 1024)
  | none => 0

/-! ## Streaming ingest: `sha256_stream_and_save` (app.py lines 106-140)

The uploaded stream is modelled by the list of chunks that successive
`uploaded_file.read(CHUNK_SIZE)` calls return; the read loop stops at the
first empty chunk (`if not chunk: break`).  The temporary file's content is
returned in place of its path.  The SHA-256 function from `hashlib` is an
external dependency and is passed in; feeding it chunk by chunk and
finalizing is modelled by applying it to the concatenation of the chunks
that were consumed. -/

/-- Outcome of one ingest call.  `tempCreated` records whether
`tempfile.NamedTemporaryFile` ran; `tempLeft` records whether the temporary
file is still on disk when the function returns (on success the caller owns
its deletion). -/
structure IngestResult where
  outcome : Except String (List ℕ × String × ℕ)
  tempCreated : Bool
  tempLeft : Bool
deriving Repr

def capMessage : String := "File exceeds hard size cap of 200 MB."

/-- The chunked write/hash loop (app.py lines 123-137): accumulate the bytes
written and the running count; after each chunk, abort (deleting the partial
file, modelled by returning `none`) when
`bytes_written and human_mb(bytes_written) > HARD_CAP_MB`. -/
def saveLoop : List (List ℕ) → List ℕ → ℕ → Option (List ℕ × ℕ)
  | [], acc, written => some (acc, written)
  | chunk :: rest, acc, written =>
    if chunk = [] then some (acc, written)
    else
      if written + chunk.length ≠ 0 ∧
          (HARD_CAP_MB : ℚ) < human_mb (some (written + chunk.length)) then
        none
      else
        saveLoop rest (acc ++ chunk) (written + chunk.length)

/-- `sha256_stream_and_save` (app.py lines 106-140).  `total_size` is the
declared size metadata (`getattr(uploaded_file, "size", None)`); the first
guard fails before any temporary file is created. -/
def sha256_stream_and_save (hash : List ℕ → String) (total_size : Option ℕ)
    (chunks : List (List ℕ)) : IngestResult :=
  if pyTruthyNat total_size = true ∧ (HARD_CAP_MB : ℚ) < human_mb total_size then
    { outcome := .error capMessage, tempCreated := false, tempLeft := false }
  else
    match saveLoop chunks [] 0 with
    | none => { outcome := .error capMessage, tempCreated := true, tempLeft := false }
    | some (content, written) =>
      { outcome := .ok (content, hash content, written),
        tempCreated := true, tempLeft := true }

/-! ## Size comparator: `pct_smaller` (app.py lines 148-152) -/

/-- `pct_smaller`: `None` unless `orig_bytes` is truthy and `txt_bytes` is
not `None`; otherwise `(1 - txt_bytes / max(orig_bytes, 1)) * 100` clamped
to `[-100, 100]`. -/
def pct_smaller (orig_bytes txt_bytes : Option ℕ) : Option ℚ :=
  match orig_bytes, txt_bytes with
  | some o, some t =>
    if o ≠ 0 then
      some (max (min ((1 - (t : ℚ) / max (o : ℚ) 1) * 100) 100) (-100))
    else none
  | _, _ => none

/-! ## Filename utilities (app.py lines 81-104)

`pathlib.Path(...).stem` / `.suffix` are reproduced for the final path
component: CPython returns `name[:i]` / `name[i:]` for `i = name.rfind(".")`
when `0 < i < len(name) - 1`, else the whole name / the empty string. -/

/-- Python `str.strip()` whitespace (the ASCII part; upload names and the
claim inputs are ASCII). -/
def isPySpace (c : Char) : Bool :=
  c == ' ' || c == '\t' || c == '\n' || c == '\r' || c == '\x0b' || c == '\x0c'

def pyStripChars (l : List Char) : List Char :=
  ((l.dropWhile isPySpace).reverse.dropWhile isPySpace).reverse

/-- Index of the last occurrence of a character (`str.rfind`), `none` for
`-1`. -/
def rfindIdx (ch : Char) : List Char → Option ℕ
  | [] => none
  | c :: rest =>
    match rfindIdx ch rest with
    | some i => some (i + 1)
    | none => if c == ch then some (0 : ℕ) else none

/-- `pathlib.Path(p).name`: the final path component (everything after the
last `/`, the whole string when there is none). -/
def pyName (p : String) : String :=
  match rfindIdx '/' p.data with
  | some i => String.mk (p.data.drop (i + 1))
  | none => p

/-- Python `str.lower()` (ASCII case mapping, as in the source's usage on
extension strings). -/
def pyLower (s : String) : String := String.mk (s.data.map Char.toLower)

/-- `pathlib.Path(p).stem`. -/
def pyStem (p : String) : String :=
  let name := pyName p
  match rfindIdx '.' name.data with
  | some i => if 0 < i ∧ i < name.length - 1 then String.mk (name.data.take i) else name
  | none => name

/-- `pathlib.Path(p).suffix`. -/
def pathSuffix (p : String) : String :=
  let name := pyName p
  match rfindIdx '.' name.data with
  | some i => if 0 < i ∧ i < name.length - 1 then String.mk (name.data.drop i) else ""
  | none => ""

/-- `sanitize_filename` (app.py lines 81-83): strip, spaces to underscores,
drop everything outside `[A-Za-z0-9._-]`, fall back to `"file"`. -/
def sanitize_filename (name : String) : String :=
  let stripped := pyStripChars name.data
  let replaced := stripped.map (fun c => if c == ' ' then '_' else c)
  let cleaned := replaced.filter
    (fun c => c.isAlpha || c.isDigit || c == '.' || c == '_' || c == '-')
  pyStrOr (String.mk cleaned) "file"

/-- `build_output_name` (app.py lines 85-88); the `datetime.now` stamp is a
parameter. -/
def build_output_name (input_name : String) (ext : String) (stamp : String) : String :=
  sanitize_filename (pyStrOr (pyStem input_name) "converted") ++ "__" ++ stamp ++ ext

/-- `is_supported` (app.py lines 100-101). -/
def is_supported (filename : String) : Bool :=
  ACCEPTED_EXTS.contains (pyLower (pathSuffix filename))

/-! ## Markdown-to-text reducer: `strip_markdown` (app.py lines 90-98)

Each `re.sub` call in the source is transcribed as a left-to-right,
non-overlapping scanner implementing the leftmost-match semantics of the
specific pattern (greedy quantifiers, with the backtracking that the
pattern admits).  Every scanner consumes at least one character of its
input per step, so running it with the input length as fuel computes the
full substitution (when the fuel hits zero the remaining input is empty). -/

def backtick : Char := Char.ofNat 96

def countLeading (p : Char → Bool) : List Char → ℕ
  | [] => 0
  | c :: rest => if p c then countLeading p rest + 1 else 0

/-- Matcher for `` `{1,3}[^`]*`{1,3} `` at the head of the list: try the
greedy opening length first, backtracking downwards; the non-backtick run is
maximal (giving characters back can never produce a closing backtick); the
closing run takes greedily at most 3 backticks.  Returns the match length. -/
def codeSpanOpen : ℕ → List Char → Option ℕ
  | 0, _ => none
  | a + 1, s =>
    let rest := s.drop (a + 1)
    let m := countLeading (fun c => !(c == backtick)) rest
    let k2 := countLeading (· == backtick) (rest.drop m)
    if 1 ≤ k2 then some ((a + 1) + m + min k2 3)
    else codeSpanOpen a s

def codeSpanMatchAt (s : List Char) : Option ℕ :=
  let k := countLeading (· == backtick) s
  if k = 0 then none else codeSpanOpen (min k 3) s

def sub1CodeGo : ℕ → List Char → List Char
  | 0, s => s
  | _ + 1, [] => []
  | fuel + 1, c :: rest =>
    match codeSpanMatchAt (c :: rest) with
    | some L => sub1CodeGo fuel ((c :: rest).drop L)
    | none => c :: sub1CodeGo fuel rest

/-- Rule 1: remove code spans (`` re.sub(r"`{1,3}[^`]*`{1,3}", "", md) ``). -/
def sub1Code (s : List Char) : List Char := sub1CodeGo s.length s

def isBlockMarker (c : Char) : Bool := c == '*' || c == '-' || c == '+' || c == '>'

/-- Matcher for `^\s{0,3}(#+|\*|-|\+|>)\s*` at a line start.  `\s{0,3}` is
greedy with backtracking, but only consuming the whole leading whitespace
run can place a marker next, so the pattern matches exactly when that run
has length at most 3 and a marker follows; `#+` and the trailing `\s*` are
greedy. -/
def lineMarkerMatchAt (s : List Char) : Option ℕ :=
  let r := countLeading isPySpace s
  if r ≤ 3 then
    match s.drop r with
    | [] => none
    | c :: rest =>
      if c == '#' then
        let hashes := countLeading (· == '#') (c :: rest)
        some (r + hashes + countLeading isPySpace ((c :: rest).drop hashes))
      else if isBlockMarker c then
        some (r + 1 + countLeading isPySpace rest)
      else none
  else none

/-- Scanner for the `re.MULTILINE` substitution: `^` matches at position 0
and right after each newline, so the flag tracks whether the previous
character (which may be inside a previous match, e.g. a trailing `\s*` that
consumed a newline) was a newline. -/
def sub2MarkersGo : ℕ → Bool → List Char → List Char
  | 0, _, s => s
  | _ + 1, _, [] => []
  | fuel + 1, atLineStart, c :: rest =>
    if atLineStart then
      match lineMarkerMatchAt (c :: rest) with
      | some L =>
        sub2MarkersGo fuel (((c :: rest).take L).getLast? == some '\n')
          ((c :: rest).drop L)
      | none => c :: sub2MarkersGo fuel (c == '\n') rest
    else c :: sub2MarkersGo fuel (c == '\n') rest

/-- Rule 2: strip leading block markers
(`re.sub(r"^\s{0,3}(#+|\*|-|\+|>)\s*", "", text, flags=re.MULTILINE)`). -/
def sub2Markers (s : List Char) : List Char := sub2MarkersGo s.length true s

/-- Matcher for `!\[([^\]]*)\]\([^)]+\)`: returns match length and the alt
text (group 1).  The bracketed runs are maximal by their character classes,
so no backtracking arises. -/
def imageMatchAt : List Char → Option (ℕ × List Char)
  | '!' :: '[' :: rest =>
    let alt := rest.takeWhile (fun c => !(c == ']'))
    (match rest.drop alt.length with
     | ']' :: '(' :: r3 =>
       let url := r3.takeWhile (fun c => !(c == ')'))
       if 1 ≤ url.length then
         match r3.drop url.length with
         | ')' :: _ => some (2 + alt.length + 2 + url.length + 1, alt)
         | _ => none
       else none
     | _ => none)
  | _ => none

def sub3ImagesGo : ℕ → List Char → List Char
  | 0, s => s
  | _ + 1, [] => []
  | fuel + 1, c :: rest =>
    match imageMatchAt (c :: rest) with
    | some (L, alt) => alt ++ sub3ImagesGo fuel ((c :: rest).drop L)
    | none => c :: sub3ImagesGo fuel rest

/-- Rule 3: image syntax to alt text
(`re.sub(r"!\[([^\]]*)\]\([^)]+\)", r"\1", text)`). -/
def sub3Images (s : List Char) : List Char := sub3ImagesGo s.length s

/-- Matcher for `\[([^\]]+)\]\([^)]+\)`: link text must be nonempty. -/
def linkMatchAt : List Char → Option (ℕ × List Char)
  | '[' :: rest =>
    let txt := rest.takeWhile (fun c => !(c == ']'))
    if 1 ≤ txt.length then
      match rest.drop txt.length with
      | ']' :: '(' :: r3 =>
        let url := r3.takeWhile (fun c => !(c == ')'))
        if 1 ≤ url.length then
          match r3.drop url.length with
          | ')' :: _ => some (1 + txt.length + 2 + url.length + 1, txt)
          | _ => none
        else none
      | _ => none
    else none
  | _ => none

def sub4LinksGo : ℕ → List Char → List Char
  | 0, s => s
  | _ + 1, [] => []
  | fuel + 1, c :: rest =>
    match linkMatchAt (c :: rest) with
    | some (L, txt) => txt ++ sub4LinksGo fuel ((c :: rest).drop L)
    | none => c :: sub4LinksGo fuel rest

/-- Rule 4: link syntax to link text
(`re.sub(r"\[([^\]]+)\]\([^)]+\)", r"\1", text)`). -/
def sub4Links (s : List Char) : List Char := sub4LinksGo s.length s

/-- Rule 5 character class: `` [*_>#~`] ``. -/
def isStripPunct (c : Char) : Bool :=
  c == '*' || c == '_' || c == '>' || c == '#' || c == '~' || c == backtick

def isSpaceOrTab (c : Char) : Bool := c == ' ' || c == '\t'

def sub6CollapseGo : ℕ → List Char → List Char
  | 0, s => s
  | _ + 1, [] => []
  | fuel + 1, c :: rest =>
    if isSpaceOrTab c then ' ' :: sub6CollapseGo fuel (rest.dropWhile isSpaceOrTab)
    else c :: sub6CollapseGo fuel rest

/-- Rule 6: collapse horizontal whitespace
(`re.sub(r"[ \t]+", " ", text)`). -/
def sub6Collapse (s : List Char) : List Char := sub6CollapseGo s.length s

/-- `strip_markdown` (app.py lines 90-98): the six substitutions in source
order followed by `str.strip()`. -/
def strip_markdown (md : String) : String :=
  let t1 := sub1Code md.data
  let t2 := sub2Markers t1
  let t3 := sub3Images t2
  let t4 := sub4Links t3
  let t5 := t4.filter (fun c => !(isStripPunct c))
  let t6 := sub6Collapse t5
  String.mk (pyStripChars t6)

/-! ## Session cache and per-upload processing (app.py lines 64-76, 185-273)

`st.session_state.results` is a Python dict keyed by the SHA-256 hex digest;
it is modelled as an insertion-ordered association list with dict-update
semantics.  One record per cache entry (comment at app.py lines 68-75). -/

structure UploadRecord where
  name : String
  md : String
  txt : Option String
  ts : String
  original_bytes : ℕ
  txt_bytes : ℕ
deriving Repr, DecidableEq

abbrev SessionResults := List (String × UploadRecord)

/-- `results[k]` lookup (`k in results` / `results[k]`). -/
def dictLookup (d : SessionResults) (k : String) : Option UploadRecord :=
  (d.find? (fun p => p.1 == k)).map (fun p => p.2)

/-- `results[k] = v`: overwrite in place when the key exists, else append
(Python dicts preserve insertion order). -/
def dictSet (d : SessionResults) (k : String) (v : UploadRecord) : SessionResults :=
  if d.any (fun p => p.1 == k) then
    d.map (fun p => if p.1 == k then (k, v) else p)
  else d ++ [(k, v)]

/-- One entry of `st.file_uploader`'s list: its `.name`, its `.size`
metadata, and the chunk sequence its `.read(CHUNK_SIZE)` calls deliver. -/
structure Upload where
  name : String
  size : Option ℕ
  chunks : List (List ℕ)
deriving Repr

/-- The external dependencies of the loop: `hashlib.sha256` (applied to the
full byte content), `convert_via_markitdown` (app.py lines 142-146, the
opaque `MarkItDown().convert` plus its trailing `or ""`/`.strip()`, applied
to the temp file's content and possibly raising), and the sidebar toggle
`also_plain_text`.  The `@st.cache_data` decorator on the adapter is keyed
by the temp path, which is fresh for every upload, so it never produces a
hit and is not modelled. -/
structure Env where
  hash : List ℕ → String
  convert_via_markitdown : List ℕ → Except String String
  also_plain_text : Bool

/-- The `try/except` around the conversion (app.py lines 218-223): a raised
error is displayed and `md_text` becomes `""`. -/
def adapterText (env : Env) (content : List ℕ) : String :=
  match env.convert_via_markitdown content with
  | .ok t => t
  | .error _ => ""

/-- Record construction on the cache-miss path (app.py lines 228-240):
`txt_text = strip_markdown(md_text) if md_text else ""`, then
`txt_bytes = len(txt_text.encode("utf-8"))` (the `if txt_text is not None`
guard is vacuous there: `txt_text` is always a string at that point), and
the record stores `txt` only when the export toggle is on. -/
def mkRecord (also_plain_text : Bool) (uploadName md stamp : String)
    (saved_bytes : ℕ) : UploadRecord :=
  let txt_text := if md ≠ "" then strip_markdown md else ""
  { name := uploadName, md := md,
    txt := if also_plain_text then some txt_text else none,
    ts := stamp, original_bytes := saved_bytes,
    txt_bytes := txt_text.utf8ByteSize }

/-- Observable outcome of processing one upload in the loop body
(app.py lines 185-273): the cache afterwards, how many times the converter
ran, whether this upload's temporary file was created, whether it is still
on disk when the iteration ends, and the `.md` download-button file name
(from `build_output_name(upload.name, ".md")`, app.py line 257). -/
structure StepResult where
  results : SessionResults
  converterCalls : ℕ
  tempCreated : Bool
  tempLeft : Bool
  mdDownloadName : Option String
deriving Repr

/-- The loop body for one upload.  Branches in source order: unsupported
extension → `continue`; ingest failure → `continue`; cache hit (app.py
lines 210-215) → record reused, nothing removes the temp file; cache miss
(lines 216-240) → convert (the `finally` removes the temp file), build and
store the record. -/
def processUpload (env : Env) (stamp : String) (results : SessionResults)
    (u : Upload) : StepResult :=
  if is_supported u.name then
    let ing := sha256_stream_and_save env.hash u.size u.chunks
    match ing.outcome with
    | .error _ =>
      { results := results, converterCalls := 0, tempCreated := ing.tempCreated,
        tempLeft := ing.tempLeft, mdDownloadName := none }
    | .ok (content, file_hash, saved_bytes) =>
      match dictLookup results file_hash with
      | some _ =>
        { results := results, converterCalls := 0, tempCreated := ing.tempCreated,
          tempLeft := ing.tempLeft,
          mdDownloadName := some (build_output_name u.name ".md" stamp) }
      | none =>
        { results := dictSet results file_hash
            (mkRecord env.also_plain_text u.name (adapterText env content)
              stamp saved_bytes),
          converterCalls := 1, tempCreated := ing.tempCreated, tempLeft := false,
          mdDownloadName := some (build_output_name u.name ".md" stamp) }
  else
    { results := results, converterCalls := 0, tempCreated := false,
      tempLeft := false, mdDownloadName := none }

/-- The `for upload in uploads` loop over a batch, threading the cache;
`stamps i` is the `datetime.now()` stamp of iteration `i`. -/
def processAllFrom (env : Env) (stamps : ℕ → String) :
    ℕ → SessionResults → List Upload → SessionResults
  | _, results, [] => results
  | i, results, u :: us =>
    processAllFrom env stamps (i + 1) (processUpload env (stamps i) results u).results us

def processAll (env : Env) (stamps : ℕ → String) (results : SessionResults)
    (uploads : List Upload) : SessionResults :=
  processAllFrom env stamps 0 results uploads

/-! ## Archive bundler (app.py lines 305-315) -/

/-- Python truthiness of `item.get("txt")`: a present, nonempty string. -/
def txtTruthy (r : UploadRecord) : Bool :=
  match r.txt with
  | some t => t != ""
  | none => false

/-- The two possible `zf.writestr` calls for one record: always a `.md`
entry with `item["md"] or ""`, plus a `.txt` entry with the same base and
the same per-iteration timestamp when `item.get("txt")` is truthy. -/
def zipEntriesFor (stamp : String) (it : UploadRecord) : List (String × String) :=
  (sanitize_filename (pyStem it.name) ++ "__" ++ stamp ++ ".md", pyStrOr it.md "") ::
    (match it.txt with
     | some t =>
       if t != "" then
         [(sanitize_filename (pyStem it.name) ++ "__" ++ stamp ++ ".txt", pyStrOr t "")]
       else []
     | none => [])

/-- The `for _, item in st.session_state.results.items()` loop; `stamps i`
is the `datetime.now()` stamp regenerated at iteration `i`. -/
def bundleFrom (stamps : ℕ → String) : ℕ → SessionResults → List (String × String)
  | _, [] => []
  | i, (_, it) :: rest => zipEntriesFor (stamps i) it ++ bundleFrom stamps (i + 1) rest

def bundle (stamps : ℕ → String) (rs : SessionResults) : List (String × String) :=
  bundleFrom stamps 0 rs

/-- Entry-name classifier used to state the bundling claims. -/
def hasSuffix (s suf : String) : Bool := suf.data.isSuffixOf s.data

/-! ## Concrete instances used by witnesses and concrete scenarios -/

/-- Concrete environment whose hash renders the byte list. -/
def envT : Env :=
  { hash := fun b => toString b,
    convert_via_markitdown := fun b => if b = [2] then .error "boom" else .ok "# hi",
    also_plain_text := false }

/-- Concrete environment with a constant hash (all contents collide). -/
def envW : Env :=
  { hash := fun _ => "H",
    convert_via_markitdown := fun _ => .ok "hi",
    also_plain_text := false }

def uploadA : Upload := { name := "a.txt", size := some 1, chunks := [[1]] }

def uploadB : Upload := { name := "b.txt", size := some 1, chunks := [[2]] }

def uploadC : Upload := { name := "c.txt", size := some 1, chunks := [[3]] }

/-- Same byte content as `uploadA`, different client file name. -/
def uploadA2 : Upload := { name := "other.txt", size := some 1, chunks := [[1]] }

def recA : UploadRecord :=
  { name := "a.txt", md := "m", txt := some "x", ts := "T",
    original_bytes := 3, txt_bytes := 1 }

/-! ## Helper lemmas about the ingest loop -/

theorem human_mb_gt_iff (w : ℕ) :
    (HARD_CAP_MB : ℚ) < human_mb (some w) ↔ hardCapBytes < w := by
  have h : (0 : ℚ) < 1024 * 1024 := by norm_num
  rw [human_mb, lt_div_iff₀ h,
    show ((HARD_CAP_MB : ℕ) : ℚ) * (1024 * 1024) = ((hardCapBytes : ℕ) : ℚ) by
      norm_num [HARD_CAP_MB, hardCapBytes]]
  exact Nat.cast_lt

theorem saveLoop_ok (chunks : List (List ℕ)) :
    ∀ acc written, (∀ c ∈ chunks, c ≠ []) →
      written + chunks.flatten.length ≤ hardCapBytes →
      saveLoop chunks acc written
        = some (acc ++ chunks.flatten, written + chunks.flatten.length) := by
  induction chunks with
  | nil => intro acc written _ _; simp [saveLoop]
  | cons c rest ih =>
    intro acc written hne hle
    have hc : c ≠ [] := hne c (by simp)
    have hlen : (c :: rest).flatten.length = c.length + rest.flatten.length := by
      simp [List.flatten]
    rw [hlen] at hle
    have hcap : ¬ ((HARD_CAP_MB : ℚ) < human_mb (some (written + c.length))) := by
      rw [human_mb_gt_iff]; omega
    rw [saveLoop, if_neg hc, if_neg (by tauto)]
    rw [ih (acc ++ c) (written + c.length) (fun x hx => hne x (by simp [hx])) (by omega)]
    simp [List.flatten, List.append_assoc]
    omega

theorem saveLoop_none (chunks : List (List ℕ)) :
    ∀ acc written, (∀ c ∈ chunks, c ≠ []) →
      written ≤ hardCapBytes →
      hardCapBytes < written + chunks.flatten.length →
      saveLoop chunks acc written = none := by
  induction chunks with
  | nil =>
    intro acc written _ hle hgt
    simp [List.flatten] at hgt
    omega
  | cons c rest ih =>
    intro acc written hne hle hgt
    have hc : c ≠ [] := hne c (by simp)
    have hlen : (c :: rest).flatten.length = c.length + rest.flatten.length := by
      simp [List.flatten]
    rw [hlen] at hgt
    by_cases hover : hardCapBytes < written + c.length
    · have hcap : (HARD_CAP_MB : ℚ) < human_mb (some (written + c.length)) := by
        rw [human_mb_gt_iff]; omega
      rw [saveLoop, if_neg hc, if_pos ⟨by omega, hcap⟩]
    · have hcap : ¬ ((HARD_CAP_MB : ℚ) < human_mb (some (written + c.length))) := by
        rw [human_mb_gt_iff]; omega
      rw [saveLoop, if_neg hc, if_neg (by tauto)]
      exact ih (acc ++ c) (written + c.length)
        (fun x hx => hne x (by simp [hx])) (by omega) (by omega)

/-- Full evaluation of a successful ingest: declared size within cap (or
absent) and stream within cap.  Used to evaluate concrete instances without
unfolding the rational-arithmetic guards. -/
theorem sha256_eval_ok (hash : List ℕ → String) (total_size : Option ℕ)
    (chunks : List (List ℕ))
    (hch : ∀ c ∈ chunks, c ≠ [])
    (hdecl : ∀ n, total_size = some n → n ≤ hardCapBytes)
    (hlen : chunks.flatten.length ≤ hardCapBytes) :
    sha256_stream_and_save hash total_size chunks
      = { outcome := .ok (chunks.flatten, hash chunks.flatten, chunks.flatten.length),
          tempCreated := true, tempLeft := true } := by
  have hguard : ¬ (pyTruthyNat total_size = true
      ∧ (HARD_CAP_MB : ℚ) < human_mb total_size) := by
    rintro ⟨htr, hgt⟩
    cases total_size with
    | none => simp [pyTruthyNat] at htr
    | some n => exact absurd ((human_mb_gt_iff n).mp hgt) (by have := hdecl n rfl; omega)
  rw [sha256_stream_and_save, if_neg hguard, saveLoop_ok chunks [] 0 hch (by omega)]
  simp

/-- Full evaluation of a declared-size-violation ingest. -/
theorem sha256_eval_declared_violation (hash : List ℕ → String) (n : ℕ)
    (chunks : List (List ℕ)) (hn : hardCapBytes < n) :
    sha256_stream_and_save hash (some n) chunks
      = { outcome := .error capMessage, tempCreated := false, tempLeft := false } := by
  rw [sha256_stream_and_save, if_pos
    ⟨by simp [pyTruthyNat]; omega, (human_mb_gt_iff n).mpr hn⟩]

/-! ## Claim theorems: ingest (C2, C3) and size comparator (C6) -/

/-- C2: whenever the declared size or the actual streamed length exceeds the
hard cap, `sha256_stream_and_save` fails with the size-limit error and
leaves no temporary file on disk; moreover on a declared-size violation it
fails before a temporary file is even created. -/
theorem C2_ingest_cap_cleanup (hash : List ℕ → String) (total_size : Option ℕ)
    (chunks : List (List ℕ))
    (hch : ∀ c ∈ chunks, c ≠ [])
    (hbig : (∃ n, total_size = some n ∧ hardCapBytes < n)
            ∨ hardCapBytes < chunks.flatten.length) :
    (sha256_stream_and_save hash total_size chunks).outcome = .error capMessage
    ∧ (sha256_stream_and_save hash total_size chunks).tempLeft = false
    ∧ ((∃ n, total_size = some n ∧ hardCapBytes < n) →
        (sha256_stream_and_save hash total_size chunks).tempCreated = false) := by
  by_cases hdecl : pyTruthyNat total_size = true
      ∧ (HARD_CAP_MB : ℚ) < human_mb total_size
  · rw [sha256_stream_and_save, if_pos hdecl]
    exact ⟨rfl, rfl, fun _ => rfl⟩
  · have hD : ¬ (∃ n, total_size = some n ∧ hardCapBytes < n) := by
      rintro ⟨n, rfl, hn⟩
      exact hdecl ⟨by simp [pyTruthyNat]; omega, (human_mb_gt_iff n).mpr hn⟩
    have hA : hardCapBytes < chunks.flatten.length := by
      rcases hbig with hd | ha
      · exact absurd hd hD
      · exact ha
    rw [sha256_stream_and_save, if_neg hdecl,
      saveLoop_none chunks [] 0 hch (by omega) (by omega)]
    exact ⟨rfl, rfl, fun h => absurd h hD⟩

/-- C3 (counterexample to the claim as stated): a stream of a single byte —
far below the hard cap — is rejected by ingest when the declared size
metadata reads 250 MB, so success of ingest is not independent of the
declared size. -/
theorem C3_counterexample :
    ([0] : List ℕ).length ≤ hardCapBytes
    ∧ (sha256_stream_and_save (fun _ => "h")
        (some (250 * 1024 * 1024)) [[0]]).outcome = .error capMessage := by
  constructor
  · decide
  · rw [sha256_eval_declared_violation (fun _ => "h") (250 * 1024 * 1024) [[0]] (by decide)]

/-- C3 (amended): for every stream whose length is at most the hard cap,
provided the declared size metadata (when present) also does not exceed the
hard cap, ingest succeeds and returns a byte count exactly equal to the
number of bytes read, independent of how the stream is split into chunks
(the outcome depends only on the concatenation of the chunks). -/
theorem C3_ingest_byte_count (hash : List ℕ → String) (total_size : Option ℕ)
    (chunks : List (List ℕ))
    (hch : ∀ c ∈ chunks, c ≠ [])
    (hdecl : ∀ n, total_size = some n → n ≤ hardCapBytes)
    (hlen : chunks.flatten.length ≤ hardCapBytes) :
    (sha256_stream_and_save hash total_size chunks).outcome
      = .ok (chunks.flatten, hash chunks.flatten, chunks.flatten.length) := by
  have hguard : ¬ (pyTruthyNat total_size = true
      ∧ (HARD_CAP_MB : ℚ) < human_mb total_size) := by
    rintro ⟨htr, hgt⟩
    cases total_size with
    | none => simp [pyTruthyNat] at htr
    | some n => exact absurd ((human_mb_gt_iff n).mp hgt) (by have := hdecl n rfl; omega)
  rw [sha256_stream_and_save, if_neg hguard, saveLoop_ok chunks [] 0 hch (by omega)]
  simp

/-- C6: `pct_smaller` is `None` exactly when the original byte count is
zero/absent or the derived byte count is absent; otherwise it is
`clamp((1 - derived/max(orig,1)) * 100, -100, 100)`; the three concrete
values from the specification hold, and a negative value is returned as-is. -/
theorem C6_pct_smaller_spec :
    (∀ o t, pct_smaller o t = none ↔ (o = none ∨ o = some 0 ∨ t = none))
    ∧ (∀ o t, o ≠ 0 →
        pct_smaller (some o) (some t)
          = some (max (min ((1 - (t : ℚ) / max (o : ℚ) 1) * 100) 100) (-100)))
    ∧ pct_smaller (some 100) (some 50) = some 50
    ∧ pct_smaller (some 50) (some 100) = some (-100)
    ∧ pct_smaller (some 100) (some 0) = some 100
    ∧ pct_smaller (some 2) (some 3) = some (-50) := by
  refine ⟨?_, ?_,
    by norm_num [pct_smaller, min_def, max_def],
    by norm_num [pct_smaller, min_def, max_def],
    by norm_num [pct_smaller, min_def, max_def],
    by norm_num [pct_smaller, min_def, max_def]⟩
  · intro o t
    match o, t with
    | none, _ => simp [pct_smaller]
    | some o, none => simp [pct_smaller]
    | some o, some t =>
      by_cases ho : o = 0
      · subst ho; simp [pct_smaller]
      · simp [pct_smaller, ho]
  · intro o t ho
    simp [pct_smaller, ho]

/-- Witness for C2 at a concrete input: declared size 250 MB, one small
chunk. -/
theorem C2_ingest_cap_cleanup_witness :
    (sha256_stream_and_save (fun _ => "h") (some (250 * 1024 * 1024)) [[1]]).outcome
        = .error capMessage
    ∧ (sha256_stream_and_save (fun _ => "h") (some (250 * 1024 * 1024)) [[1]]).tempLeft
        = false
    ∧ ((∃ n, (some (250 * 1024 * 1024) : Option ℕ) = some n ∧ hardCapBytes < n) →
        (sha256_stream_and_save (fun _ => "h") (some (250 * 1024 * 1024)) [[1]]).tempCreated
          = false) :=
  C2_ingest_cap_cleanup (fun _ => "h") (some (250 * 1024 * 1024)) [[1]]
    (by decide) (Or.inl ⟨250 * 1024 * 1024, rfl, by decide⟩)

/-- Witness for the amended C3 at a concrete input: three bytes split into
two chunks, declared size 3. -/
theorem C3_ingest_byte_count_witness :
    (sha256_stream_and_save (fun _ => "h") (some 3) [[1, 2], [3]]).outcome
      = .ok ([1, 2, 3], "h", 3) :=
  C3_ingest_byte_count (fun _ => "h") (some 3) [[1, 2], [3]]
    (by decide) (fun n hn => by injection hn with h; subst h; decide) (by decide)

/-- Witness for C6 at a concrete input with a nonzero original size. -/
theorem C6_pct_smaller_spec_witness :
    pct_smaller (some 100) (some 50)
      = some (max (min ((1 - (50 : ℚ) / max (100 : ℚ) 1) * 100) 100) (-100)) :=
  C6_pct_smaller_spec.2.1 100 50 (by decide)

/-- C8: `strip_markdown` is a total function (a Lean function by
construction), yields the empty string on empty input, and maps
"**bold** `code`" to exactly "bold": the code span and its content are
removed, the emphasis markers stripped, and surrounding whitespace
trimmed. -/
theorem C8_strip_markdown_spec :
    strip_markdown "" = "" ∧ strip_markdown "**bold** `code`" = "bold" := by
  constructor
  · rfl
  · rfl


/-! ## Helper lemmas about the session dict and the upload loop -/

theorem dictLookup_cons (p : String × UploadRecord) (d : SessionResults) (k : String) :
    dictLookup (p :: d) k = if p.1 == k then some p.2 else dictLookup d k := by
  cases h : p.1 == k
  · simp [dictLookup, List.find?_cons, h]
  · simp [dictLookup, List.find?_cons, h]

theorem dictLookup_none_all (d : SessionResults) (k : String)
    (h : dictLookup d k = none) : d.any (fun p => p.1 == k) = false := by
  induction d with
  | nil => rfl
  | cons p rest ih =>
    rw [dictLookup_cons] at h
    cases hp : p.1 == k
    · simp only [hp, if_false] at h
      simp [List.any_cons, hp, ih h]
    · simp [hp] at h

theorem dictSet_fresh (d : SessionResults) (k : String) (v : UploadRecord)
    (h : dictLookup d k = none) : dictSet d k v = d ++ [(k, v)] := by
  rw [dictSet, if_neg]
  simp [dictLookup_none_all d k h]

theorem dictLookup_append_left (d e : SessionResults) (k : String)
    (h : (dictLookup d k).isSome = true) :
    dictLookup (d ++ e) k = dictLookup d k := by
  induction d with
  | nil => simp [dictLookup] at h
  | cons p rest ih =>
    rw [dictLookup_cons] at h
    rw [List.cons_append, dictLookup_cons, dictLookup_cons]
    cases hp : p.1 == k
    · simp only [hp, if_false] at h ⊢
      exact ih h
    · simp [hp]

theorem dictLookup_append_self (d : SessionResults) (k : String) (v : UploadRecord)
    (h : dictLookup d k = none) :
    dictLookup (d ++ [(k, v)]) k = some v := by
  induction d with
  | nil => simp [dictLookup_cons]
  | cons p rest ih =>
    rw [dictLookup_cons] at h
    rw [List.cons_append, dictLookup_cons]
    cases hp : p.1 == k
    · simp only [hp, if_false] at h ⊢
      exact ih h
    · simp [hp] at h

theorem processUpload_not_supported (env : Env) (stamp : String)
    (results : SessionResults) (u : Upload)
    (h : is_supported u.name = false) :
    processUpload env stamp results u
      = { results := results, converterCalls := 0, tempCreated := false,
          tempLeft := false, mdDownloadName := none } := by
  simp [processUpload, h]

theorem processUpload_ingest_error (env : Env) (stamp : String)
    (results : SessionResults) (u : Upload) (e : String)
    (hsup : is_supported u.name = true)
    (herr : (sha256_stream_and_save env.hash u.size u.chunks).outcome = .error e) :
    processUpload env stamp results u
      = { results := results, converterCalls := 0,
          tempCreated := (sha256_stream_and_save env.hash u.size u.chunks).tempCreated,
          tempLeft := (sha256_stream_and_save env.hash u.size u.chunks).tempLeft,
          mdDownloadName := none } := by
  simp [processUpload, hsup, herr]

theorem processUpload_hit (env : Env) (stamp : String)
    (results : SessionResults) (u : Upload) (content : List ℕ) (fh : String)
    (sb : ℕ) (r : UploadRecord)
    (hsup : is_supported u.name = true)
    (hok : (sha256_stream_and_save env.hash u.size u.chunks).outcome
      = .ok (content, fh, sb))
    (hlook : dictLookup results fh = some r) :
    processUpload env stamp results u
      = { results := results, converterCalls := 0,
          tempCreated := (sha256_stream_and_save env.hash u.size u.chunks).tempCreated,
          tempLeft := (sha256_stream_and_save env.hash u.size u.chunks).tempLeft,
          mdDownloadName := some (build_output_name u.name ".md" stamp) } := by
  simp [processUpload, hsup, hok, hlook]

theorem processUpload_miss (env : Env) (stamp : String)
    (results : SessionResults) (u : Upload) (content : List ℕ) (fh : String)
    (sb : ℕ)
    (hsup : is_supported u.name = true)
    (hok : (sha256_stream_and_save env.hash u.size u.chunks).outcome
      = .ok (content, fh, sb))
    (hlook : dictLookup results fh = none) :
    processUpload env stamp results u
      = { results := dictSet results fh
            (mkRecord env.also_plain_text u.name (adapterText env content) stamp sb),
          converterCalls := 1,
          tempCreated := (sha256_stream_and_save env.hash u.size u.chunks).tempCreated,
          tempLeft := false,
          mdDownloadName := some (build_output_name u.name ".md" stamp) } := by
  simp [processUpload, hsup, hok, hlook]

theorem processUpload_preserves_key (env : Env) (stamp : String)
    (results : SessionResults) (u : Upload) (k : String)
    (h : (dictLookup results k).isSome = true) :
    (dictLookup (processUpload env stamp results u).results k).isSome = true := by
  cases hsup : is_supported u.name
  · rw [processUpload_not_supported env stamp results u hsup]
    exact h
  · cases hout : (sha256_stream_and_save env.hash u.size u.chunks).outcome with
    | error e =>
      rw [processUpload_ingest_error env stamp results u e hsup hout]
      exact h
    | ok v =>
      obtain ⟨content, fh, sb⟩ := v
      cases hlook : dictLookup results fh with
      | some r =>
        rw [processUpload_hit env stamp results u content fh sb r hsup hout hlook]
        exact h
      | none =>
        rw [processUpload_miss env stamp results u content fh sb hsup hout hlook,
          dictSet_fresh results fh _ hlook]
        simp only
        rw [dictLookup_append_left results _ k h]
        exact h

theorem processUpload_own_key (env : Env) (stamp : String)
    (results : SessionResults) (u : Upload) (content : List ℕ) (fh : String)
    (sb : ℕ)
    (hsup : is_supported u.name = true)
    (hok : (sha256_stream_and_save env.hash u.size u.chunks).outcome
      = .ok (content, fh, sb)) :
    (dictLookup (processUpload env stamp results u).results fh).isSome = true := by
  cases hlook : dictLookup results fh with
  | some r =>
    rw [processUpload_hit env stamp results u content fh sb r hsup hok hlook, hlook]
    rfl
  | none =>
    rw [processUpload_miss env stamp results u content fh sb hsup hok hlook,
      dictSet_fresh results fh _ hlook]
    simp only
    rw [dictLookup_append_self results fh _ hlook]
    rfl

theorem processAllFrom_preserves_key (env : Env) (stamps : ℕ → String) :
    ∀ (us : List Upload) (i : ℕ) (d : SessionResults) (k : String),
      (dictLookup d k).isSome = true →
      (dictLookup (processAllFrom env stamps i d us) k).isSome = true := by
  intro us
  induction us with
  | nil => intro i d k h; exact h
  | cons u rest ih =>
    intro i d k h
    exact ih (i + 1) _ k (processUpload_preserves_key env (stamps i) d u k h)

/-- C1: a cache record is created at most once per distinct content hash in
a session: when the hash of the ingested content is already in
`st.session_state.results`, the cache is left unchanged and the converter is
not invoked; when the hash is new, the converter runs exactly once and
exactly one record, built from that first conversion attempt, is appended
under the hash. -/
theorem C1_cache_record_unique :
    (∀ (env : Env) (stamp : String) (results : SessionResults) (u : Upload)
        (content : List ℕ) (fh : String) (sb : ℕ) (r : UploadRecord),
      is_supported u.name = true →
      (sha256_stream_and_save env.hash u.size u.chunks).outcome = .ok (content, fh, sb) →
      dictLookup results fh = some r →
      (processUpload env stamp results u).results = results
      ∧ (processUpload env stamp results u).converterCalls = 0)
    ∧ (∀ (env : Env) (stamp : String) (results : SessionResults) (u : Upload)
        (content : List ℕ) (fh : String) (sb : ℕ),
      is_supported u.name = true →
      (sha256_stream_and_save env.hash u.size u.chunks).outcome = .ok (content, fh, sb) →
      dictLookup results fh = none →
      (processUpload env stamp results u).results
        = results
          ++ [(fh, mkRecord env.also_plain_text u.name (adapterText env content) stamp sb)]
      ∧ (processUpload env stamp results u).converterCalls = 1
      ∧ dictLookup (processUpload env stamp results u).results fh
          = some (mkRecord env.also_plain_text u.name (adapterText env content) stamp sb)) := by
  constructor
  · intro env stamp results u content fh sb r hsup hok hlook
    have h := processUpload_hit env stamp results u content fh sb r hsup hok hlook
    exact ⟨by rw [h], by rw [h]⟩
  · intro env stamp results u content fh sb hsup hok hlook
    have h := processUpload_miss env stamp results u content fh sb hsup hok hlook
    refine ⟨?_, by rw [h], ?_⟩
    · rw [h]
      exact dictSet_fresh results fh _ hlook
    · rw [h]
      show dictLookup (dictSet results fh _) fh = _
      rw [dictSet_fresh results fh _ hlook]
      exact dictLookup_append_self results fh _ hlook

/-- Witness for C1: a concrete cache hit (constant hash `"H"` already
present) and a concrete cache miss from the empty session. -/
theorem C1_cache_record_unique_witness :
    ((processUpload envW "t" [("H", recA)] uploadA).results = [("H", recA)]
      ∧ (processUpload envW "t" [("H", recA)] uploadA).converterCalls = 0)
    ∧ ((processUpload envW "t" [] uploadA).results
        = [] ++ [("H", mkRecord envW.also_plain_text uploadA.name
            (adapterText envW [1]) "t" 1)]
      ∧ (processUpload envW "t" [] uploadA).converterCalls = 1
      ∧ dictLookup (processUpload envW "t" [] uploadA).results "H"
          = some (mkRecord envW.also_plain_text uploadA.name
              (adapterText envW [1]) "t" 1)) := by
  have hok : (sha256_stream_and_save envW.hash uploadA.size uploadA.chunks).outcome
      = .ok ([1], "H", 1) := by
    rw [sha256_eval_ok envW.hash uploadA.size uploadA.chunks (by decide)
      (by intro n hn; simp [uploadA] at hn; subst hn; decide) (by decide)]
    rfl
  exact ⟨C1_cache_record_unique.1 envW "t" [("H", recA)] uploadA [1] "H" 1 recA
      (by decide) hok rfl,
    C1_cache_record_unique.2 envW "t" [] uploadA [1] "H" 1 (by decide) hok rfl⟩

/-- C5: when the converter raises, the file is treated as empty markdown
output: a record with empty markdown text is still stored under the file's
hash, and every (supported, successfully ingested) upload of a batch ends up
with a record in the session cache no matter what the converter does on any
file of the batch. -/
theorem C5_conversion_failure_isolated :
    (∀ (env : Env) (stamp : String) (results : SessionResults) (u : Upload)
        (content : List ℕ) (fh : String) (sb : ℕ) (e : String),
      is_supported u.name = true →
      (sha256_stream_and_save env.hash u.size u.chunks).outcome = .ok (content, fh, sb) →
      dictLookup results fh = none →
      env.convert_via_markitdown content = .error e →
      (processUpload env stamp results u).results
        = results ++ [(fh, mkRecord env.also_plain_text u.name "" stamp sb)]
      ∧ (mkRecord env.also_plain_text u.name "" stamp sb).md = "")
    ∧ (∀ (env : Env) (stamps : ℕ → String) (i : ℕ) (results : SessionResults)
        (pre : List Upload) (u : Upload) (post : List Upload)
        (content : List ℕ) (fh : String) (sb : ℕ),
      is_supported u.name = true →
      (sha256_stream_and_save env.hash u.size u.chunks).outcome = .ok (content, fh, sb) →
      (dictLookup (processAllFrom env stamps i results (pre ++ u :: post)) fh).isSome
        = true) := by
  constructor
  · intro env stamp results u content fh sb e hsup hok hlook hconv
    have hat : adapterText env content = "" := by simp [adapterText, hconv]
    have h := processUpload_miss env stamp results u content fh sb hsup hok hlook
    rw [hat] at h
    refine ⟨?_, by simp [mkRecord]⟩
    rw [h]
    exact dictSet_fresh results fh _ hlook
  · intro env stamps i results pre u post content fh sb hsup hok
    induction pre generalizing i results with
    | nil =>
      show (dictLookup (processAllFrom env stamps (i + 1)
        (processUpload env (stamps i) results u).results post) fh).isSome = true
      exact processAllFrom_preserves_key env stamps post (i + 1) _ fh
        (processUpload_own_key env (stamps i) results u content fh sb hsup hok)
    | cons p pre ih =>
      exact ih (i + 1) (processUpload env (stamps i) results p).results

/-- Witness for C5: the converter fails on `uploadB`'s bytes, the record with
empty markdown is still appended, and in a three-file batch whose middle
file fails the third file still gets its record. -/
theorem C5_conversion_failure_isolated_witness :
    ((processUpload envT "t" [] uploadB).results
        = [] ++ [(envT.hash [2], mkRecord envT.also_plain_text uploadB.name "" "t" 1)]
      ∧ (mkRecord envT.also_plain_text uploadB.name "" "t" 1).md = "")
    ∧ (dictLookup (processAllFrom envT (fun _ => "t") 0 []
          [uploadA, uploadB, uploadC]) (envT.hash [3])).isSome = true := by
  have hokB : (sha256_stream_and_save envT.hash uploadB.size uploadB.chunks).outcome
      = .ok ([2], envT.hash [2], 1) := by
    rw [sha256_eval_ok envT.hash uploadB.size uploadB.chunks (by decide)
      (by intro n hn; simp [uploadB] at hn; subst hn; decide) (by decide)]
    rfl
  have hokC : (sha256_stream_and_save envT.hash uploadC.size uploadC.chunks).outcome
      = .ok ([3], envT.hash [3], 1) := by
    rw [sha256_eval_ok envT.hash uploadC.size uploadC.chunks (by decide)
      (by intro n hn; simp [uploadC] at hn; subst hn; decide) (by decide)]
    rfl
  exact ⟨C5_conversion_failure_isolated.1 envT "t" [] uploadB [2] (envT.hash [2]) 1
      "boom" (by decide) hokB rfl rfl,
    C5_conversion_failure_isolated.2 envT (fun _ => "t") 0 [] [uploadA, uploadB]
      uploadC [] [3] (envT.hash [3]) 1 (by decide) hokC⟩

/-- C4 (evaluating the code at the failing input): uploading the same
supported file twice in one session takes the cache-hit branch on the second
upload; a temporary file is created for it by ingest and is still on disk
when the iteration ends — the cache-hit path has no `os.remove`. -/
theorem C4_temp_leak_on_cache_hit :
    (processUpload envW "t2" (processUpload envW "t1" [] uploadA).results
        uploadA).tempCreated = true
    ∧ (processUpload envW "t2" (processUpload envW "t1" [] uploadA).results
        uploadA).tempLeft = true := by
  have hing : sha256_stream_and_save envW.hash uploadA.size uploadA.chunks
      = { outcome := .ok ([1], "H", 1), tempCreated := true, tempLeft := true } := by
    rw [sha256_eval_ok envW.hash uploadA.size uploadA.chunks (by decide)
      (by intro n hn; simp [uploadA] at hn; subst hn; decide) (by decide)]
    rfl
  have hsup : is_supported uploadA.name = true := by decide
  have hok : (sha256_stream_and_save envW.hash uploadA.size uploadA.chunks).outcome
      = .ok ([1], "H", 1) := by rw [hing]
  have h1 : (processUpload envW "t1" [] uploadA).results
      = [] ++ [("H", mkRecord envW.also_plain_text uploadA.name
          (adapterText envW [1]) "t1" 1)] := by
    rw [processUpload_miss envW "t1" [] uploadA [1] "H" 1 hsup hok rfl]
    exact dictSet_fresh [] "H" _ rfl
  have hlook : dictLookup (processUpload envW "t1" [] uploadA).results "H"
      = some (mkRecord envW.also_plain_text uploadA.name (adapterText envW [1]) "t1" 1) := by
    rw [h1]
    exact dictLookup_append_self [] "H" _ rfl
  have h2 := processUpload_hit envW "t2" (processUpload envW "t1" [] uploadA).results
    uploadA [1] "H" 1 _ hsup hok hlook
  constructor
  · rw [h2]
    show (sha256_stream_and_save envW.hash uploadA.size uploadA.chunks).tempCreated = true
    rw [hing]
  · rw [h2]
    show (sha256_stream_and_save envW.hash uploadA.size uploadA.chunks).tempLeft = true
    rw [hing]

/-- C7 (counterexample to the claim as stated): with the plain-text export
toggle off and nonempty converter output, the stored record has no
`plain_text` but its `derived_bytes` field is 5, not 0. -/
theorem C7_counterexample :
    (mkRecord false "n" "hello" "t" 5).txt = none
    ∧ ¬ ((mkRecord false "n" "hello" "t" 5).txt_bytes = 0) := by
  constructor
  · rfl
  · decide

/-- C7 (amended): `derived_bytes` always equals the UTF-8 byte length of the
stripped-markdown text computed from the record's markdown (0 when the
markdown is empty), independently of whether `plain_text` is stored; when
`plain_text` is present, `derived_bytes` equals its byte length; and
`plain_text` is present in the record if and only if plain-text export was
requested at conversion time. -/
theorem C7_derived_bytes (apt : Bool) (uploadName md stamp : String) (sb : ℕ) :
    ((mkRecord apt uploadName md stamp sb).txt = none ↔ apt = false)
    ∧ (∀ t, (mkRecord apt uploadName md stamp sb).txt = some t →
        (mkRecord apt uploadName md stamp sb).txt_bytes = t.utf8ByteSize)
    ∧ ((mkRecord apt uploadName md stamp sb).txt_bytes
        = (if md ≠ "" then strip_markdown md else "").utf8ByteSize)
    ∧ (md = "" → (mkRecord apt uploadName md stamp sb).txt_bytes = 0) := by
  refine ⟨?_, ?_, rfl, ?_⟩
  · cases apt <;> simp [mkRecord]
  · intro t ht
    cases apt <;> simp [mkRecord] at ht ⊢
    rw [← ht]
  · intro hmd
    subst hmd
    rfl

/-- Witness for C7 at a concrete record with export requested. -/
theorem C7_derived_bytes_witness :
    (mkRecord true "n" "abc" "t" 0).txt_bytes = String.utf8ByteSize "abc" :=
  (C7_derived_bytes true "n" "abc" "t" 0).2.1 "abc" rfl

/-- C10: when byte-identical content arrives a second time under a different
file name, the cached record — including its stored original name — is left
entirely unchanged, so the archive entry for that content is named from the
first upload's file name while the per-file download button of the second
interaction is named from the second upload's file name. -/
theorem C10_cache_hit_keeps_first_name (env : Env) (st1 st2 : String)
    (zst : ℕ → String) (u1 u2 : Upload) (c1 c2 : List ℕ) (fh : String)
    (sb1 sb2 : ℕ)
    (hsup1 : is_supported u1.name = true)
    (hsup2 : is_supported u2.name = true)
    (hok1 : (sha256_stream_and_save env.hash u1.size u1.chunks).outcome
      = .ok (c1, fh, sb1))
    (hok2 : (sha256_stream_and_save env.hash u2.size u2.chunks).outcome
      = .ok (c2, fh, sb2)) :
    (processUpload env st2 (processUpload env st1 [] u1).results u2).results
        = (processUpload env st1 [] u1).results
    ∧ dictLookup
        (processUpload env st2 (processUpload env st1 [] u1).results u2).results fh
        = some (mkRecord env.also_plain_text u1.name (adapterText env c1) st1 sb1)
    ∧ (processUpload env st2 (processUpload env st1 [] u1).results u2).mdDownloadName
        = some (build_output_name u2.name ".md" st2)
    ∧ (bundle zst
        (processUpload env st2 (processUpload env st1 [] u1).results u2).results).head?
        = some (sanitize_filename (pyStem u1.name) ++ "__" ++ zst 0 ++ ".md",
            pyStrOr (mkRecord env.also_plain_text u1.name (adapterText env c1) st1 sb1).md "") := by
  have h1 : (processUpload env st1 [] u1).results
      = [] ++ [(fh, mkRecord env.also_plain_text u1.name (adapterText env c1) st1 sb1)] := by
    rw [processUpload_miss env st1 [] u1 c1 fh sb1 hsup1 hok1 rfl]
    exact dictSet_fresh [] fh _ rfl
  have hlook : dictLookup (processUpload env st1 [] u1).results fh
      = some (mkRecord env.also_plain_text u1.name (adapterText env c1) st1 sb1) := by
    rw [h1]
    exact dictLookup_append_self [] fh _ rfl
  have h2 := processUpload_hit env st2 (processUpload env st1 [] u1).results u2 c2 fh
    sb2 _ hsup2 hok2 hlook
  refine ⟨by rw [h2], ?_, by rw [h2], ?_⟩
  · rw [h2]
    exact hlook
  · rw [h2]
    show (bundle zst (processUpload env st1 [] u1).results).head? = _
    rw [h1]
    simp [bundle, bundleFrom, zipEntriesFor, mkRecord]

/-- Witness for C10: the same single byte uploaded as `a.txt` and then as
`other.txt` under the constant hash environment. -/
theorem C10_cache_hit_keeps_first_name_witness :
    (processUpload envW "t2" (processUpload envW "t1" [] uploadA).results
        uploadA2).results = (processUpload envW "t1" [] uploadA).results
    ∧ dictLookup (processUpload envW "t2" (processUpload envW "t1" [] uploadA).results
          uploadA2).results "H"
        = some (mkRecord envW.also_plain_text uploadA.name (adapterText envW [1]) "t1" 1)
    ∧ (processUpload envW "t2" (processUpload envW "t1" [] uploadA).results
        uploadA2).mdDownloadName = some (build_output_name uploadA2.name ".md" "t2")
    ∧ (bundle (fun _ => "Z")
        (processUpload envW "t2" (processUpload envW "t1" [] uploadA).results
          uploadA2).results).head?
        = some (sanitize_filename (pyStem uploadA.name) ++ "__" ++ "Z" ++ ".md",
            pyStrOr (mkRecord envW.also_plain_text uploadA.name
              (adapterText envW [1]) "t1" 1).md "") := by
  have hok1 : (sha256_stream_and_save envW.hash uploadA.size uploadA.chunks).outcome
      = .ok ([1], "H", 1) := by
    rw [sha256_eval_ok envW.hash uploadA.size uploadA.chunks (by decide)
      (by intro n hn; simp [uploadA] at hn; subst hn; decide) (by decide)]
    rfl
  have hok2 : (sha256_stream_and_save envW.hash uploadA2.size uploadA2.chunks).outcome
      = .ok ([1], "H", 1) := by
    rw [sha256_eval_ok envW.hash uploadA2.size uploadA2.chunks (by decide)
      (by intro n hn; simp [uploadA2] at hn; subst hn; decide) (by decide)]
    rfl
  exact C10_cache_hit_keeps_first_name envW "t1" "t2" (fun _ => "Z") uploadA uploadA2
    [1] [1] "H" 1 1 (by decide) (by decide) hok1 hok2

/-! ## Helper lemmas about archive entry names -/

theorem isPrefixOf_self_append (p r : List Char) : p.isPrefixOf (p ++ r) = true := by
  induction p with
  | nil => simp [List.isPrefixOf]
  | cons a as ih => simp [List.isPrefixOf, ih]

theorem hasSuffix_append (s t : String) : hasSuffix (s ++ t) t = true := by
  obtain ⟨a⟩ := s
  obtain ⟨b⟩ := t
  show b.reverse.isPrefixOf ((a ++ b).reverse) = true
  rw [List.reverse_append]
  exact isPrefixOf_self_append b.reverse a.reverse

theorem hasSuffix_txt_not_md (s : String) : hasSuffix (s ++ ".txt") ".md" = false := by
  obtain ⟨a⟩ := s
  show (['.', 'm', 'd'].reverse).isPrefixOf
    ((a ++ ['.', 't', 'x', 't']).reverse) = false
  rw [List.reverse_append]
  rfl

theorem hasSuffix_md_not_txt (s : String) : hasSuffix (s ++ ".md") ".txt" = false := by
  obtain ⟨a⟩ := s
  show (['.', 't', 'x', 't'].reverse).isPrefixOf
    ((a ++ ['.', 'm', 'd']).reverse) = false
  rw [List.reverse_append]
  rfl

theorem bundleFrom_filter_md (stamps : ℕ → String) :
    ∀ (rs : SessionResults) (i : ℕ),
      (bundleFrom stamps i rs).filter (fun e => hasSuffix e.1 ".md")
        = (List.enumFrom i rs).map (fun p =>
            (sanitize_filename (pyStem p.2.2.name) ++ "__" ++ stamps p.1 ++ ".md",
             pyStrOr p.2.2.md "")) := by
  intro rs
  induction rs with
  | nil => intro i; rfl
  | cons q rest ih =>
    intro i
    obtain ⟨h, it⟩ := q
    have hzip : (zipEntriesFor (stamps i) it).filter (fun e => hasSuffix e.1 ".md")
        = [(sanitize_filename (pyStem it.name) ++ "__" ++ stamps i ++ ".md",
            pyStrOr it.md "")] := by
      cases hx : it.txt with
      | none => simp [zipEntriesFor, hx, hasSuffix_append]
      | some t =>
        by_cases ht : (t != "") = true
        · simp [zipEntriesFor, hx, ht, hasSuffix_append, hasSuffix_txt_not_md]
        · simp only [ne_eq, Bool.not_eq_true] at ht
          simp [zipEntriesFor, hx, ht, hasSuffix_append]
    rw [bundleFrom, List.filter_append, hzip, ih (i + 1)]
    rfl

theorem bundleFrom_filter_txt_len (stamps : ℕ → String) :
    ∀ (rs : SessionResults) (i : ℕ),
      ((bundleFrom stamps i rs).filter (fun e => hasSuffix e.1 ".txt")).length
        = (rs.filter (fun p => txtTruthy p.2)).length := by
  intro rs
  induction rs with
  | nil => intro i; rfl
  | cons q rest ih =>
    intro i
    obtain ⟨h, it⟩ := q
    rw [bundleFrom, List.filter_append, List.length_append, ih (i + 1)]
    cases hx : it.txt with
    | none => simp [zipEntriesFor, hx, txtTruthy, hasSuffix_md_not_txt]
    | some t =>
      by_cases ht : (t != "") = true
      · simp [zipEntriesFor, hx, ht, txtTruthy, hasSuffix_md_not_txt, hasSuffix_append]
        omega
      · simp only [ne_eq, Bool.not_eq_true] at ht
        simp [zipEntriesFor, hx, ht, txtTruthy, hasSuffix_md_not_txt]

theorem bundleFrom_txt_mem (stamps : ℕ → String) :
    ∀ (rs : SessionResults) (i j : ℕ) (p : String × UploadRecord),
      rs[j]? = some p → txtTruthy p.2 = true →
      (sanitize_filename (pyStem p.2.name) ++ "__" ++ stamps (i + j) ++ ".txt",
        pyStrOr (p.2.txt.getD "") "") ∈ bundleFrom stamps i rs := by
  intro rs
  induction rs with
  | nil => intro i j p hp; simp at hp
  | cons q rest ih =>
    intro i j p hp ht
    cases j with
    | zero =>
      simp at hp
      subst hp
      obtain ⟨h, it⟩ := q
      rw [Nat.add_zero]
      apply List.mem_append_left
      cases hx : it.txt with
      | none => simp [txtTruthy, hx] at ht
      | some t =>
        have ht' : (t != "") = true := by simpa [txtTruthy, hx] using ht
        simp [zipEntriesFor, hx, ht']
    | succ j =>
      obtain ⟨h, it⟩ := q
      rw [show i + (j + 1) = (i + 1) + j by omega]
      exact List.mem_append_right _ (ih (i + 1) j p (by simpa using hp) ht)

/-- C9: the archive bundler produces exactly one `.md` entry per cached
record — also when markdown texts are empty — named
`{sanitizedStem}__{timestamp}.md` and holding the record's markdown text
(empty string if none); and it holds one `.txt` entry per record with a
non-empty plain-text artifact and no other `.txt` entries, the `.txt` entry
sharing the record's sanitized stem and per-iteration timestamp. -/
theorem C9_bundle_spec (stamps : ℕ → String) (rs : SessionResults) :
    ((bundle stamps rs).filter (fun e => hasSuffix e.1 ".md")).length = rs.length
    ∧ (bundle stamps rs).filter (fun e => hasSuffix e.1 ".md")
        = rs.enum.map (fun p =>
            (sanitize_filename (pyStem p.2.2.name) ++ "__" ++ stamps p.1 ++ ".md",
             pyStrOr p.2.2.md ""))
    ∧ ((bundle stamps rs).filter (fun e => hasSuffix e.1 ".txt")).length
        = (rs.filter (fun p => txtTruthy p.2)).length
    ∧ (∀ (j : ℕ) (p : String × UploadRecord),
        rs[j]? = some p → txtTruthy p.2 = true →
        (sanitize_filename (pyStem p.2.name) ++ "__" ++ stamps j ++ ".txt",
          pyStrOr (p.2.txt.getD "") "") ∈ bundle stamps rs) := by
  refine ⟨?_, bundleFrom_filter_md stamps rs 0, bundleFrom_filter_txt_len stamps rs 0, ?_⟩
  · rw [bundle, bundleFrom_filter_md stamps rs 0, List.length_map]
    simp
  · intro j p hp ht
    simpa using bundleFrom_txt_mem stamps rs 0 j p hp ht

/-- Witness for C9: a one-record cache with a non-empty plain-text artifact. -/
theorem C9_bundle_spec_witness :
    (sanitize_filename (pyStem recA.name) ++ "__" ++ "T" ++ ".txt",
      pyStrOr (recA.txt.getD "") "") ∈ bundle (fun _ => "T") [("h", recA)] :=
  (C9_bundle_spec (fun _ => "T") [("h", recA)]).2.2.2 0 ("h", recA) rfl rfl
